import Mathlib

/-!
Shallow embedding of the port-range / opened-ports document logic of the
repository (Go sources: the `state` ports document code and the
`instancemutater` worker loop), together with theorems checking the
natural-language specification against it.

Machine integers of the source (`int` port bounds) are modelled as `Int`;
strings as `String`; fallible functions return `Option`/`Except`.
-/

set_option maxHeartbeats 1000000

deriving instance DecidableEq for Except

namespace Juju

/-- Test for an ASCII lowercase letter, the character class of the
`[a-z]` pieces of the name regular expressions. -/
def isLowerCh (c : Char) : Bool := 'a' ≤ c && c ≤ 'z'

/-- Test for an ASCII digit, the character class `[0-9]`. -/
def isDigitCh (c : Char) : Bool := '0' ≤ c && c ≤ '9'

/-- Test for an ASCII lowercase letter or digit, the class `[a-z0-9]`. -/
def isAlnumLowerCh (c : Char) : Bool := isLowerCh c || isDigitCh c

/-- ASCII lowering of one character, modelling the effect of the source's
string lowering on the protocol names involved here. -/
def toLowerCh (c : Char) : Char :=
  if 'A' ≤ c ∧ c ≤ 'Z' then Char.ofNat (c.toNat + 32) else c

/-- Modelled from the external standard library: `strings.ToLower`,
restricted to ASCII case mapping (sufficient for the protocol names the
source compares against). -/
def strToLower (s : String) : String := String.mk (s.data.map toLowerCh)

/-- Split a character list on a separator character; mirrors how the
name regular expressions decompose `a/b`- and `a-b`-shaped names. -/
def splitOnChar (sep : Char) : List Char → List (List Char)
  | [] => [[]]
  | c :: cs =>
    if c = sep then [] :: splitOnChar sep cs
    else
      match splitOnChar sep cs with
      | [] => [[c]]
      | w :: ws => (c :: w) :: ws

/-- Matcher for the external names library's `NumberSnippet`
regular expression `(?:0|[1-9][0-9]*)`. -/
def validNumberChars : List Char → Bool
  | [] => false
  | [c] => isDigitCh c
  | c :: rest => ('1' ≤ c && c ≤ '9') && rest.all isDigitCh

/-- Matcher for the first word of an application name:
`[a-z][a-z0-9]*`. -/
def validAppHeadWord (cs : List Char) : Bool :=
  match cs with
  | [] => false
  | c :: rest => isLowerCh c && rest.all isAlnumLowerCh

/-- Matcher for a subsequent dash-separated word of an application name:
`[a-z0-9]*[a-z][a-z0-9]*` (nonempty, lowercase alphanumeric, containing
at least one letter). -/
def validAppTailWord (cs : List Char) : Bool :=
  !cs.isEmpty && cs.all isAlnumLowerCh && cs.any isLowerCh

/-- Modelled from the external names library: `IsValidApplication`,
the anchored `ApplicationSnippet` regular expression
`[a-z][a-z0-9]*(-[a-z0-9]*[a-z][a-z0-9]*)*`. -/
def IsValidApplication (s : String) : Bool :=
  match splitOnChar '-' s.data with
  | [] => false
  | w :: ws => validAppHeadWord w && ws.all validAppTailWord

/-- Modelled from the external names library: `IsValidUnit`, the anchored
`UnitSnippet` regular expression `ApplicationSnippet/NumberSnippet`. -/
def IsValidUnit (s : String) : Bool :=
  match splitOnChar '/' s.data with
  | [app, num] => IsValidApplication (String.mk app) && validNumberChars num
  | _ => false

/-- Matcher for the external names library's `ContainerTypeSnippet`
regular expression `[a-z]+`. -/
def validContainerTypeChars (cs : List Char) : Bool :=
  !cs.isEmpty && cs.all isLowerCh

/-- Matcher for the `(?:/[a-z]+/Number)*` tail of `MachineSnippet`,
after splitting on `/`: an alternating list of container types and
numbers, in pairs. -/
def validMachineTailChars : List (List Char) → Bool
  | [] => true
  | c :: n :: rest => validContainerTypeChars c && validNumberChars n && validMachineTailChars rest
  | _ => false

/-- Matcher for the external names library's `MachineSnippet` regular
expression `Number(?:/[a-z]+/Number)*`, on a character list. -/
def isValidMachineChars (cs : List Char) : Bool :=
  match splitOnChar '/' cs with
  | [] => false
  | n :: rest => validNumberChars n && validMachineTailChars rest

/-- `PortRange` represents a single range of ports opened by one unit
(source structure `PortRange` with fields `UnitName`, `FromPort`,
`ToPort`, `Protocol`). -/
structure PortRange where
  UnitName : String
  FromPort : Int
  ToPort : Int
  Protocol : String
deriving DecidableEq

/-- Errors produced by the ports logic, one constructor per distinct
error construction site of the source. -/
inductive PortsError where
  | invalidProtocol (proto : String)
  | invalidUnit (unitName : String)
  | icmpPortsNotSupported (fromPort : Int)
  | invalidPortRange (fromPort toPort : Int)
  | portBoundsOutOfRange (fromPort toPort : Int)
  | portRangesConflict (a b : PortRange)
  | excessiveContention
deriving DecidableEq

/-- `Validate` checks if the port range is valid
(source method `PortRange.Validate`). -/
def Validate (p : PortRange) : Option PortsError :=
  if strToLower p.Protocol ≠ "tcp" ∧ strToLower p.Protocol ≠ "udp" ∧
      strToLower p.Protocol ≠ "icmp" then
    some (.invalidProtocol (strToLower p.Protocol))
  else if ¬ IsValidUnit p.UnitName then
    some (.invalidUnit p.UnitName)
  else if strToLower p.Protocol = "icmp" then
    if p.FromPort = p.ToPort ∧ p.FromPort = -1 then none
    else some (.icmpPortsNotSupported p.FromPort)
  else if p.FromPort > p.ToPort then
    some (.invalidPortRange p.FromPort p.ToPort)
  else if p.FromPort ≤ 0 ∨ p.FromPort > 65535 ∨ p.ToPort ≤ 0 ∨ p.ToPort > 65535 then
    some (.portBoundsOutOfRange p.FromPort p.ToPort)
  else none

/-- `CheckConflicts` determines if the two port ranges conflict
(source method `PortRange.CheckConflicts`): each operand is validated
first, an exact match (including the unit name) is not a conflict,
differing protocols never conflict, and otherwise numerically
overlapping bounds conflict. -/
def CheckConflicts (prA prB : PortRange) : Option PortsError :=
  match Validate prA with
  | some e => some e
  | none =>
    match Validate prB with
    | some e => some e
    | none =>
      if prA = prB then none
      else if prA.Protocol ≠ prB.Protocol then none
      else if prB.FromPort ≤ prA.ToPort ∧ prA.FromPort ≤ prB.ToPort then
        some (.portRangesConflict prA prB)
      else none

/-- `SanitizeBounds` returns a copy of the port range with the bounds
swapped into order and clamped into 1..65535; ranges whose protocol is
exactly `icmp` are returned unchanged (source method
`PortRange.SanitizeBounds`). -/
def SanitizeBounds (a : PortRange) : PortRange :=
  if a.Protocol = "icmp" then a
  else
    let f0 := if a.FromPort > a.ToPort then a.ToPort else a.FromPort
    let t0 := if a.FromPort > a.ToPort then a.FromPort else a.ToPort
    let f1 := if f0 ≤ 0 then 1 else if f0 > 65535 then 65535 else f0
    let t1 := if t0 ≤ 0 then 1 else if t0 > 65535 then 65535 else t0
    { a with FromPort := f1, ToPort := t1 }

/-- `portsGlobalKey` returns the global database key for the opened
ports document for the given machine and subnet (source function
`portsGlobalKey`): the literal format string `m#%s#%s`. -/
def portsGlobalKey (machineID subnetID : String) : String :=
  "m#" ++ machineID ++ "#" ++ subnetID

/-- Split a character list at its first `#`: the first component is the
longest `#`-free front, the second the remainder (beginning with `#`
when nonempty). -/
def breakAtHash : List Char → List Char × List Char
  | [] => ([], [])
  | c :: cs =>
    if c = '#' then ([], c :: cs)
    else
      let p := breakAtHash cs
      (c :: p.1, p.2)

/-- One attempted match of the ports-id regular expression
`m#(?P<machine>MachineSnippet)#(?P<subnet>.*)$` at the head of the given
character list. The machine group cannot contain `#`, so it must extend
exactly to the first `#` after the `m#` literal; the subnet group `.*`
cannot cross a newline and must extend to the end of the text.
Returns (full match, machine group, subnet group). -/
def matchPortsKeyAt (cs : List Char) : Option (List Char × List Char × List Char) :=
  match cs with
  | 'm' :: '#' :: rest =>
    match breakAtHash rest with
    | (mpart, '#' :: spart) =>
      if isValidMachineChars mpart && spart.all (· ≠ '\n') then
        some ('m' :: '#' :: rest, mpart, spart)
      else none
    | (_, _) => none
  | _ => none

/-- Leftmost match of the ports-id regular expression in the given text,
modelling the unanchored search of the source's regular-expression
`FindStringSubmatch`. -/
def findPortsMatch : List Char → Option (List Char × List Char × List Char)
  | [] => none
  | c :: cs =>
    match matchPortsKeyAt (c :: cs) with
    | some r => some r
    | none => findPortsMatch cs

/-- `extractPortsIDParts` parses the given ports global key and extracts
its parts (source function `extractPortsIDParts`): a successful
submatch search returns the three-element list (full match, machine,
subnet), mirroring `FindStringSubmatch`; otherwise the key is reported
not valid (`none`). -/
def extractPortsIDParts (globalKey : String) : Option (List String) :=
  match findPortsMatch globalKey.data with
  | some (full, machine, subnet) =>
    some [String.mk full, String.mk machine, String.mk subnet]
  | none => none

/-- `portsDoc` represents the state of ports opened on machines for
subnets (source structure `portsDoc`). `TxnRevno` is the document's
optimistic-concurrency revision token. -/
structure portsDoc where
  DocID : String
  ModelUUID : String
  MachineID : String
  SubnetID : String
  Ports : List PortRange
  TxnRevno : Int
deriving DecidableEq

/-- In-memory `Ports` object state: the document snapshot plus the
`areNew` flag that is true for documents not in state yet (source
structure `Ports`; the store handle is modelled separately as `World`). -/
structure PortsState where
  doc : portsDoc
  areNew : Bool
deriving DecidableEq

/-- The shared store visible to the transaction runner: the model-active
flag, the dead-entity sets consulted by `notDeadDoc` assertions, and the
`openedPorts` collection (a list of documents keyed by `DocID`). -/
structure World where
  modelActive : Bool
  deadMachines : List String
  deadSubnets : List String
  deadUnits : List String
  portsColl : List portsDoc
deriving DecidableEq

/-- Look a document up by its id in the `openedPorts` collection
(the store's `FindId`). -/
def findDoc (w : World) (id : String) : Option portsDoc :=
  w.portsColl.find? (fun d => d.DocID == id)

/-- `getPorts` returns the ports document for the specified machine and
subnet, looked up under `portsGlobalKey` (source function `getPorts`);
`none` models the not-found error. -/
def getPorts (w : World) (machineID subnetID : String) : Option portsDoc :=
  findDoc w (portsGlobalKey machineID subnetID)

/-- One conditional operation of a transaction, covering exactly the op
shapes built by the ports code: lifecycle assertions, an insert asserting
`DocMissing`, updates asserting an exact `txn-revno`, and a removal
asserting `DocExists`. -/
inductive TxnOp where
  | assertModelActive (modelUUID : String)
  | assertMachineNotDead (machineID : String)
  | assertSubnetNotDead (subnetID : String)
  | assertUnitNotDead (unitName : String)
  | insertPortsDoc (doc : portsDoc)
  | addPortToSet (docID : String) (revno : Int) (pr : PortRange)
  | setPortsList (docID : String) (revno : Int) (ports : List PortRange)
  | removePortsDoc (docID : String)
deriving DecidableEq

/-- Apply one operation to the store; `none` means its assertion failed,
which aborts the whole transaction. A modifying operation bumps the
touched document's revision token, as the transaction machinery does. -/
def applyOp (w : World) : TxnOp → Option World
  | .assertModelActive _ => if w.modelActive then some w else none
  | .assertMachineNotDead id => if w.deadMachines.contains id then none else some w
  | .assertSubnetNotDead id => if w.deadSubnets.contains id then none else some w
  | .assertUnitNotDead id => if w.deadUnits.contains id then none else some w
  | .insertPortsDoc d =>
    match findDoc w d.DocID with
    | none => some { w with portsColl := w.portsColl ++ [d] }
    | some _ => none
  | .addPortToSet id revno pr =>
    match findDoc w id with
    | some d =>
      if d.TxnRevno = revno then
        some { w with
          portsColl := w.portsColl.map (fun x =>
            if x.DocID == id then
              { x with
                Ports := if pr ∈ x.Ports then x.Ports else x.Ports ++ [pr],
                TxnRevno := x.TxnRevno + 1 }
            else x) }
      else none
    | none => none
  | .setPortsList id revno ports =>
    match findDoc w id with
    | some d =>
      if d.TxnRevno = revno then
        some { w with
          portsColl := w.portsColl.map (fun x =>
            if x.DocID == id then
              { x with Ports := ports, TxnRevno := x.TxnRevno + 1 }
            else x) }
      else none
    | none => none
  | .removePortsDoc id =>
    match findDoc w id with
    | some _ => some { w with portsColl := w.portsColl.filter (fun d => !(d.DocID == id)) }
    | none => none

/-- Apply a whole operation list; any failed assertion aborts the run
(the caller then leaves the store unchanged: all-or-nothing). -/
def applyOps (w : World) : List TxnOp → Option World
  | [] => some w
  | op :: rest => (applyOp w op).bind (fun w1 => applyOps w1 rest)

/-- Ops asserting the owning machine, and the subnet when one is set,
are not dead (source function
`assertMachineNotDeadAndSubnetNotDeadWhenSetOps`). -/
def assertMachineAndSubnetOps (doc : portsDoc) : List TxnOp :=
  [.assertMachineNotDead doc.MachineID] ++
    (if doc.SubnetID ≠ "" then [.assertSubnetNotDead doc.SubnetID] else [])

/-- Ops for adding port ranges to a new ports document: the inserted
document carries exactly the given range as its ports list and the
insert asserts the document is missing (source function
`addPortsDocOpsFunc`). -/
def addPortsDocOps (doc : portsDoc) (pr : PortRange) : List TxnOp :=
  assertMachineAndSubnetOps doc ++ [.insertPortsDoc { doc with Ports := [pr] }]

/-- Ops for adding a port range to an existing ports document: lifecycle
assertions, a not-dead assertion on the owning unit, and an
add-to-set update asserting the document's revision token (source
function `updatePortsDocOpsFunc`). -/
def updatePortsDocOps (doc : portsDoc) (pr : PortRange) : List TxnOp :=
  assertMachineAndSubnetOps doc ++
    [.assertUnitNotDead pr.UnitName, .addPortToSet doc.DocID doc.TxnRevno pr]

/-- Ops for setting the whole port list of an existing ports document
(source function `setPortsDocOpsFunc`). -/
def setPortsDocOps (doc : portsDoc) (ports : List PortRange) : List TxnOp :=
  assertMachineAndSubnetOps doc ++ [.setPortsList doc.DocID doc.TxnRevno ports]

/-- Ops for removing the ports document from state (source method
`Ports.removeOps`): a bare removal asserting the document exists. -/
def removeOps (doc : portsDoc) : List TxnOp :=
  [.removePortsDoc doc.DocID]

/-- Outcome of one invocation of a transaction build function: an error,
the no-operations sentinel, or an operation list to run. -/
inductive TxnBuild where
  | fail (e : PortsError)
  | noOperations
  | ops (l : List TxnOp)
deriving DecidableEq

/-- Outcome of the conflict-check loop of `OpenPorts` over the existing
ranges: fail on the first conflict, stop with the no-op signal on an
exact duplicate, or fall through. -/
inductive OpenScan where
  | proceed
  | dupFound
  | failed (e : PortsError)
deriving DecidableEq

/-- The conflict-check loop of `OpenPorts` (source: the
`for _, existingPorts := range p.doc.Ports` loop of `Ports.OpenPorts`):
each existing range is checked against the new range; a conflict error
aborts, an exact match yields the no-operations sentinel. -/
def openPortsScan : List PortRange → PortRange → OpenScan
  | [], _ => .proceed
  | ex :: rest, pr =>
    match CheckConflicts ex pr with
    | some e => .failed e
    | none => if ex = pr then .dupFound else openPortsScan rest pr

/-- The transaction build function of `Ports.OpenPorts` at its first
attempt: scan for conflicts and duplicates, then emit the model-active
assertion followed by either create ops (document not in state yet) or
update ops. -/
def openPortsBuild (p : PortsState) (pr : PortRange) : TxnBuild :=
  match openPortsScan p.doc.Ports pr with
  | .failed e => .fail e
  | .dupFound => .noOperations
  | .proceed =>
    .ops (.assertModelActive p.doc.ModelUUID ::
      (if p.areNew then addPortsDocOps p.doc pr else updatePortsDocOps p.doc pr))

/-- `OpenPorts` adds the specified port range to the list of ports
maintained by this document (source method `Ports.OpenPorts`), modelled
in the sequential, uncontended case: the build function runs at attempt
zero and its operations are applied atomically. Returns the store, the
in-memory object state, and on success whether a transaction was
executed (`false` exactly on the no-operations path). On any error the
store and the object are returned unchanged, as in the source where the
in-memory document is only appended to after a successful run. A failed
assertion surfaces as `excessiveContention` (the retry path is not taken
in a sequential execution). -/
def OpenPorts (w : World) (p : PortsState) (pr : PortRange) :
    World × PortsState × Except PortsError Bool :=
  match Validate pr with
  | some e => (w, p, .error e)
  | none =>
    match openPortsBuild p pr with
    | .fail e => (w, p, .error e)
    | .noOperations =>
      (w, ⟨{ p.doc with Ports := p.doc.Ports ++ [pr] }, false⟩, .ok false)
    | .ops l =>
      match applyOps w l with
      | some w1 =>
        (w1, ⟨{ p.doc with Ports := p.doc.Ports ++ [pr] }, false⟩, .ok true)
      | none => (w, p, .error .excessiveContention)

/-- Outcome of the removal loop of `ClosePorts` over the existing
ranges: either the retained list together with the found flag, or the
error that aborted the loop. -/
inductive CloseScan where
  | result (newPorts : List PortRange) (found : Bool)
  | failed (e : PortsError)
deriving DecidableEq

/-- The removal loop of `ClosePorts` (source: the
`for _, existingPortsDef := range ports.doc.Ports` loop of
`Ports.ClosePorts`): an exact match is dropped and remembered as found;
any other range is checked for conflicts and the loop aborts when a
conflicting range belongs to the same unit; all remaining ranges are
retained in order. -/
def closePortsScan : List PortRange → PortRange → CloseScan
  | [], _ => .result [] false
  | ex :: rest, pr =>
    if ex = pr then
      match closePortsScan rest pr with
      | .result np _ => .result np true
      | .failed e => .failed e
    else
      match CheckConflicts ex pr with
      | some e =>
        if ex.UnitName = pr.UnitName then .failed e
        else
          match closePortsScan rest pr with
          | .result np found => .result (ex :: np) found
          | .failed e2 => .failed e2
      | none =>
        match closePortsScan rest pr with
        | .result np found => .result (ex :: np) found
        | .failed e2 => .failed e2

/-- The transaction build function of `Ports.ClosePorts` at its first
attempt, also returning the retained port list the source keeps in the
captured `newPorts` variable: no-operations when the exact range is
absent, document removal when nothing remains, otherwise a whole-list
update asserting the revision token. -/
def closePortsBuild (p : PortsState) (pr : PortRange) : TxnBuild × List PortRange :=
  match closePortsScan p.doc.Ports pr with
  | .failed e => (.fail e, [])
  | .result np found =>
    if ¬ found then (.noOperations, np)
    else if np = [] then (.ops (removeOps p.doc), np)
    else (.ops (setPortsDocOps p.doc np), np)

/-- `ClosePorts` removes the specified port range from the list of ports
maintained by this document (source method `Ports.ClosePorts`), modelled
like `OpenPorts` in the sequential, uncontended case. On success the
in-memory port list becomes the retained list; `areNew` is untouched. -/
def ClosePorts (w : World) (p : PortsState) (pr : PortRange) :
    World × PortsState × Except PortsError Bool :=
  match Validate pr with
  | some e => (w, p, .error e)
  | none =>
    match closePortsBuild p pr with
    | (.fail e, _) => (w, p, .error e)
    | (.noOperations, np) =>
      (w, ⟨{ p.doc with Ports := np }, p.areNew⟩, .ok false)
    | (.ops l, np) =>
      match applyOps w l with
      | some w1 => (w1, ⟨{ p.doc with Ports := np }, p.areNew⟩, .ok true)
      | none => (w, p, .error .excessiveContention)

/-- `PortsForUnit` returns the ranges associated with the specified unit
name maintained on this document (source method `Ports.PortsForUnit`);
a pure read of the in-memory snapshot. -/
def PortsForUnit (p : PortsState) (unitName : String) : List PortRange :=
  p.doc.Ports.filter (fun port => port.UnitName == unitName)

/-- State of the instancemutater worker's main loop: the keys of its
registry of running per-machine workers (source field
`mutater.machines`). -/
structure MutaterState where
  machines : List String
deriving DecidableEq

/-- One wake-up of the worker's select loop: the catacomb dying signal,
a batch from the machines watcher's Changes channel (`none` models the
channel being closed, the not-ok receive), or a machine-dead
notification. -/
inductive WatcherEvent where
  | contextDying
  | changes (batch : Option (List String))
  | machineDead (tag : String)
deriving DecidableEq

/-- Outcome of one iteration of the loop: continue with a new state, or
return from the loop with the given error (`none` models a nil error). -/
inductive LoopOutcome where
  | continueLoop (s : MutaterState)
  | stop (err : Option String)
deriving DecidableEq

/-- One iteration of `mutaterWorker.loop` (source method
`mutaterWorker.loop`), parameterised by the dying error of the catacomb
and by `startMachines`, whose body lives outside the given sources: on
a dying signal the loop returns the catacomb error; on a closed Changes
channel it returns the error `machines watcher closed`; on a batch it
starts machine workers and continues unless that fails; on a dead
machine it deletes the registry entry and continues. -/
def mutaterLoopStep (errDying : Option String)
    (startMachines : MutaterState → List String → Except String MutaterState)
    (s : MutaterState) : WatcherEvent → LoopOutcome
  | .contextDying => .stop errDying
  | .changes none => .stop (some "machines watcher closed")
  | .changes (some ids) =>
    match startMachines s ids with
    | .error e => .stop (some e)
    | .ok s1 => .continueLoop s1
  | .machineDead tag =>
    .continueLoop { machines := s.machines.filter (fun t => !(t == tag)) }

/-! ### Sample data used by the closed witness theorems -/

/-- Sample range: unit `web/0`, port 80, tcp. -/
def prWeb80 : PortRange := ⟨"web/0", 80, 80, "tcp"⟩

/-- Sample range overlapping `prWeb80` with the same owning unit. -/
def prWeb8090 : PortRange := ⟨"web/0", 80, 90, "tcp"⟩

/-- Sample range overlapping `prWeb80` with a different owning unit. -/
def prDb8090 : PortRange := ⟨"db/0", 80, 90, "tcp"⟩

/-- Sample range with unsorted, out-of-range bounds. -/
def prUnsorted : PortRange := ⟨"web/0", 90000, -4, "tcp"⟩

/-- Sample empty ports document for machine 0, no subnet. -/
def sampleDoc : portsDoc := ⟨portsGlobalKey "0" "", "model-uuid", "0", "", [], 0⟩

/-- Sample store with an active model, no dead entities and an empty
ports collection. -/
def sampleWorld : World := ⟨true, [], [], [], []⟩

/-- Sample in-memory `Ports` object for a document not in state yet. -/
def samplePorts : PortsState := ⟨sampleDoc, true⟩

/-- Document state after the first successful sample `OpenPorts` call:
the sample document holding exactly the range `prWeb80`. -/
def sampleDoc1 : portsDoc := { sampleDoc with Ports := [prWeb80] }

/-- Store after the first successful sample `OpenPorts` call. -/
def sampleWorld1 : World := { sampleWorld with portsColl := [sampleDoc1] }

/-- In-memory object state after the first successful sample
`OpenPorts` call. -/
def samplePorts1 : PortsState := ⟨sampleDoc1, false⟩

/-! ### Helper lemmas about the conflict relation -/

/-- Characterisation of `CheckConflicts` returning an error, for validated
operands. -/
lemma checkConflicts_ne_none_iff (A B : PortRange)
    (hA : Validate A = none) (hB : Validate B = none) :
    CheckConflicts A B ≠ none ↔
      (A.Protocol = B.Protocol ∧ B.FromPort ≤ A.ToPort ∧ A.FromPort ≤ B.ToPort ∧ A ≠ B) := by
  simp only [CheckConflicts, hA, hB]
  by_cases h1 : A = B
  · rw [if_pos h1]
    exact iff_of_false (by simp) (fun hr => hr.2.2.2 h1)
  · rw [if_neg h1]
    by_cases h2 : A.Protocol ≠ B.Protocol
    · rw [if_pos h2]
      exact iff_of_false (by simp) (fun hr => h2 hr.1)
    · rw [if_neg h2]
      by_cases h3 : B.FromPort ≤ A.ToPort ∧ A.FromPort ≤ B.ToPort
      · rw [if_pos h3]
        exact iff_of_true (by simp) ⟨not_not.mp h2, h3.1, h3.2, h1⟩
      · rw [if_neg h3]
        exact iff_of_false (by simp) (fun hr => h3 ⟨hr.2.1, hr.2.2.1⟩)

/-- A silent `CheckConflicts` implies both operands validated. -/
lemma checkConflicts_none_validates {A B : PortRange}
    (h : CheckConflicts A B = none) : Validate A = none ∧ Validate B = none := by
  unfold CheckConflicts at h
  cases hA : Validate A with
  | some e => rw [hA] at h; simp at h
  | none =>
    rw [hA] at h
    cases hB : Validate B with
    | some e => rw [hB] at h; simp at h
    | none => exact ⟨rfl, rfl⟩

/-- For validated operands, the only error `CheckConflicts` can emit is
the conflict error naming both ranges. -/
lemma checkConflicts_some_form {A B : PortRange} {e : PortsError}
    (hA : Validate A = none) (hB : Validate B = none)
    (h : CheckConflicts A B = some e) : e = .portRangesConflict A B := by
  simp only [CheckConflicts, hA, hB] at h
  by_cases h1 : A = B
  · rw [if_pos h1] at h; simp at h
  · rw [if_neg h1] at h
    by_cases h2 : A.Protocol ≠ B.Protocol
    · rw [if_pos h2] at h; simp at h
    · rw [if_neg h2] at h
      by_cases h3 : B.FromPort ≤ A.ToPort ∧ A.FromPort ≤ B.ToPort
      · rw [if_pos h3] at h; exact (Option.some_inj.mp h).symm
      · rw [if_neg h3] at h; simp at h

/-- A validated range never conflicts with itself. -/
lemma checkConflicts_self {A : PortRange} (hA : Validate A = none) :
    CheckConflicts A A = none := by
  simp only [CheckConflicts, hA]
  simp

/-- Evaluation of `CheckConflicts` on a genuine conflict: validated
operands, equal protocols, overlapping bounds, distinct ranges. -/
lemma checkConflicts_conflict {A B : PortRange}
    (hA : Validate A = none) (hB : Validate B = none)
    (hpr : A.Protocol = B.Protocol) (h1 : B.FromPort ≤ A.ToPort)
    (h2 : A.FromPort ≤ B.ToPort) (hne : A ≠ B) :
    CheckConflicts A B = some (.portRangesConflict A B) := by
  simp only [CheckConflicts, hA, hB, if_neg hne, if_neg (not_not_intro hpr),
    if_pos (And.intro h1 h2)]

/-- `SanitizeBounds` leaves a non-icmp range with ordered, in-range
bounds untouched. -/
lemma sanitize_noop (p : PortRange) (h : ¬ p.Protocol = "icmp")
    (h1 : 1 ≤ p.FromPort) (h2 : p.FromPort ≤ p.ToPort) (h3 : p.ToPort ≤ 65535) :
    SanitizeBounds p = p := by
  obtain ⟨u, f, t, pr⟩ := p
  simp only at h h1 h2 h3
  simp only [SanitizeBounds, if_neg h]
  simp only [if_neg (show ¬ f > t by omega)]
  simp only [if_neg (show ¬ f ≤ 0 by omega), if_neg (show ¬ f > 65535 by omega),
    if_neg (show ¬ t ≤ 0 by omega), if_neg (show ¬ t > 65535 by omega)]

/-! ### Claim theorems: the conflict relation and range validation -/

/-- C6: `Validate` succeeds if and only if the protocol, lowered, is one
of the closed set tcp, udp, icmp; the unit name is a valid unit name;
and either the protocol is icmp with both bounds exactly the sentinel
-1, or the protocol is tcp/udp with 1 ≤ FromPort ≤ ToPort ≤ 65535. -/
theorem validate_characterisation (p : PortRange) :
    Validate p = none ↔
      ((strToLower p.Protocol = "tcp" ∨ strToLower p.Protocol = "udp" ∨
          strToLower p.Protocol = "icmp") ∧
        IsValidUnit p.UnitName = true ∧
        ((strToLower p.Protocol = "icmp" ∧ p.FromPort = -1 ∧ p.ToPort = -1) ∨
          ((strToLower p.Protocol = "tcp" ∨ strToLower p.Protocol = "udp") ∧
            1 ≤ p.FromPort ∧ p.FromPort ≤ p.ToPort ∧ p.ToPort ≤ 65535))) := by
  by_cases h1 : strToLower p.Protocol ≠ "tcp" ∧ strToLower p.Protocol ≠ "udp" ∧
      strToLower p.Protocol ≠ "icmp"
  · rw [Validate, if_pos h1]
    exact iff_of_false (by simp) (fun hr => by obtain ⟨hp, -, -⟩ := hr; tauto)
  · rw [Validate, if_neg h1]
    by_cases h2 : IsValidUnit p.UnitName
    case neg =>
      rw [if_pos h2]
      exact iff_of_false (by simp) (fun hr => h2 hr.2.1)
    case pos =>
      rw [if_neg (not_not_intro h2)]
      by_cases h3 : strToLower p.Protocol = "icmp"
      · rw [if_pos h3]
        by_cases h4 : p.FromPort = p.ToPort ∧ p.FromPort = -1
        · rw [if_pos h4]
          exact iff_of_true rfl ⟨Or.inr (Or.inr h3), h2,
            Or.inl ⟨h3, h4.2, by obtain ⟨a, b⟩ := h4; omega⟩⟩
        · rw [if_neg h4]
          refine iff_of_false (by simp) (fun hr => ?_)
          obtain ⟨-, -, hx⟩ := hr
          rcases hx with ⟨-, hf, ht⟩ | ⟨hpu, -⟩
          · exact h4 ⟨by omega, hf⟩
          · rcases hpu with h | h
            · exact absurd (h.symm.trans h3) (by decide)
            · exact absurd (h.symm.trans h3) (by decide)
      · rw [if_neg h3]
        by_cases h5 : p.FromPort > p.ToPort
        · rw [if_pos h5]
          refine iff_of_false (by simp) (fun hr => ?_)
          obtain ⟨-, -, hx⟩ := hr
          rcases hx with ⟨hic, -, -⟩ | ⟨-, hb1, hb2, -⟩
          · exact h3 hic
          · omega
        · rw [if_neg h5]
          by_cases h6 : p.FromPort ≤ 0 ∨ p.FromPort > 65535 ∨ p.ToPort ≤ 0 ∨ p.ToPort > 65535
          · rw [if_pos h6]
            refine iff_of_false (by simp) (fun hr => ?_)
            obtain ⟨-, -, hx⟩ := hr
            rcases hx with ⟨hic, -, -⟩ | ⟨-, hb1, hb2, hb3⟩
            · exact h3 hic
            · omega
          · rw [if_neg h6]
            refine iff_of_true rfl ⟨?_, h2, Or.inr ⟨?_, by omega⟩⟩
            · by_contra hc; push_neg at hc; exact h1 hc
            · by_contra hc; push_neg at hc; exact h1 ⟨hc.1, hc.2, h3⟩

/-- C2: for two ranges that each pass validation, `CheckConflicts`
reports a conflict if and only if the protocols are equal, the numeric
bounds overlap (A.ToPort ≥ B.FromPort and B.ToPort ≥ A.FromPort), and
the ranges are not identical tuples of owner, bounds and protocol. -/
theorem check_conflicts_characterisation (A B : PortRange)
    (hA : Validate A = none) (hB : Validate B = none) :
    CheckConflicts A B ≠ none ↔
      (A.Protocol = B.Protocol ∧ B.FromPort ≤ A.ToPort ∧ A.FromPort ≤ B.ToPort ∧ A ≠ B) :=
  checkConflicts_ne_none_iff A B hA hB

/-- Witness for C2: `web/0 80-80/tcp` conflicts with `db/0 80-90/tcp`. -/
theorem check_conflicts_characterisation_witness :
    CheckConflicts prWeb80 prDb8090 ≠ none :=
  (check_conflicts_characterisation prWeb80 prDb8090 (by decide) (by decide)).mpr (by decide)

/-- C9: the conflict relation is symmetric on ranges that pass
validation: `CheckConflicts A B` reports a conflict if and only if
`CheckConflicts B A` does. -/
theorem check_conflicts_symmetric (A B : PortRange)
    (hA : Validate A = none) (hB : Validate B = none) :
    (CheckConflicts A B ≠ none) ↔ (CheckConflicts B A ≠ none) := by
  rw [checkConflicts_ne_none_iff A B hA hB, checkConflicts_ne_none_iff B A hB hA]
  constructor
  · rintro ⟨h1, h2, h3, h4⟩; exact ⟨h1.symm, h3, h2, fun he => h4 he.symm⟩
  · rintro ⟨h1, h2, h3, h4⟩; exact ⟨h1.symm, h3, h2, fun he => h4 he.symm⟩

/-- Witness for C9: symmetry applied at two concrete conflicting
ranges. -/
theorem check_conflicts_symmetric_witness :
    CheckConflicts prDb8090 prWeb80 ≠ none :=
  (check_conflicts_symmetric prWeb80 prDb8090 (by decide) (by decide)).mp (by decide)

/-- C10: for a non-icmp range, `SanitizeBounds` keeps the unit name and
protocol and yields bounds with 1 ≤ FromPort ≤ ToPort ≤ 65535; an icmp
range is returned unchanged; and the function is idempotent. -/
theorem sanitize_bounds_spec (p : PortRange) :
    (p.Protocol = "icmp" → SanitizeBounds p = p) ∧
    (p.Protocol ≠ "icmp" →
      (SanitizeBounds p).UnitName = p.UnitName ∧
      (SanitizeBounds p).Protocol = p.Protocol ∧
      1 ≤ (SanitizeBounds p).FromPort ∧
      (SanitizeBounds p).FromPort ≤ (SanitizeBounds p).ToPort ∧
      (SanitizeBounds p).ToPort ≤ 65535) ∧
    SanitizeBounds (SanitizeBounds p) = SanitizeBounds p := by
  by_cases h : p.Protocol = "icmp"
  · have hi : SanitizeBounds p = p := by rw [SanitizeBounds, if_pos h]
    refine ⟨fun _ => hi, fun hn => absurd h hn, ?_⟩
    rw [hi]; exact hi
  · have hmain : (SanitizeBounds p).UnitName = p.UnitName ∧
        (SanitizeBounds p).Protocol = p.Protocol ∧
        1 ≤ (SanitizeBounds p).FromPort ∧
        (SanitizeBounds p).FromPort ≤ (SanitizeBounds p).ToPort ∧
        (SanitizeBounds p).ToPort ≤ 65535 := by
      obtain ⟨u, f, t, pr⟩ := p
      simp only at h
      simp only [SanitizeBounds, if_neg h]
      refine ⟨trivial, trivial, ?_, ?_, ?_⟩ <;> dsimp only <;> split_ifs <;> omega
    refine ⟨fun hic => absurd hic h, fun _ => hmain, ?_⟩
    obtain ⟨-, hpr, hb1, hb2, hb3⟩ := hmain
    exact sanitize_noop (SanitizeBounds p) (by rw [hpr]; exact h) hb1 hb2 hb3

/-- Witness for C10: the non-icmp clause applied to a range with
unsorted out-of-range bounds. -/
theorem sanitize_bounds_spec_witness :
    (SanitizeBounds prUnsorted).UnitName = prUnsorted.UnitName ∧
    (SanitizeBounds prUnsorted).Protocol = prUnsorted.Protocol ∧
    1 ≤ (SanitizeBounds prUnsorted).FromPort ∧
    (SanitizeBounds prUnsorted).FromPort ≤ (SanitizeBounds prUnsorted).ToPort ∧
    (SanitizeBounds prUnsorted).ToPort ≤ 65535 :=
  (sanitize_bounds_spec prUnsorted).2.1 (by decide)

/-- C8: when the machines watcher's Changes channel closes (the not-ok
receive, modelled as a `none` batch), one iteration of the worker's main
loop returns from the loop with the non-nil error
`machines watcher closed`, and never continues as if an empty batch had
arrived. -/
theorem mutater_loop_watcher_closed_fatal (errDying : Option String)
    (startMachines : MutaterState → List String → Except String MutaterState)
    (s : MutaterState) :
    mutaterLoopStep errDying startMachines s (.changes none) =
      .stop (some "machines watcher closed") ∧
    ∀ s1, mutaterLoopStep errDying startMachines s (.changes none) ≠ .continueLoop s1 :=
  ⟨rfl, fun s1 h => by simp [mutaterLoopStep] at h⟩

/-- Witness for C8: a closed-channel event at a concrete loop state
stops the loop with the watcher-closed error. -/
theorem mutater_loop_watcher_closed_fatal_witness :
    mutaterLoopStep none (fun s2 _ => Except.ok s2) ⟨["machine-0"]⟩ (.changes none) =
      .stop (some "machines watcher closed") :=
  (mutater_loop_watcher_closed_fatal none (fun s2 _ => Except.ok s2) ⟨["machine-0"]⟩).1

/-! ### Helper lemmas about `OpenPorts` and `ClosePorts` -/

/-- A no-operations build means the conflict scan found a duplicate. -/
lemma openPortsBuild_noOperations_scan {p : PortsState} {pr : PortRange}
    (hb : openPortsBuild p pr = .noOperations) :
    openPortsScan p.doc.Ports pr = .dupFound := by
  unfold openPortsBuild at hb
  cases hs : openPortsScan p.doc.Ports pr
  · rw [hs] at hb; simp at hb
  · rfl
  · rw [hs] at hb; simp at hb

/-- A build producing operations means the conflict scan fell through. -/
lemma openPortsBuild_ops_scan {p : PortsState} {pr : PortRange} {l : List TxnOp}
    (hb : openPortsBuild p pr = .ops l) :
    openPortsScan p.doc.Ports pr = .proceed := by
  unfold openPortsBuild at hb
  cases hs : openPortsScan p.doc.Ports pr
  · rfl
  · rw [hs] at hb; simp at hb
  · rw [hs] at hb; simp at hb

/-- Inversion of a successful `OpenPorts` call: the range validated, the
conflict scan did not fail, and the in-memory port list gained the
range. -/
lemma openPorts_ok_inversion {w w1 : World} {p p1 : PortsState} {pr : PortRange} {e1 : Bool}
    (h : OpenPorts w p pr = (w1, p1, .ok e1)) :
    Validate pr = none ∧
    (openPortsScan p.doc.Ports pr = .dupFound ∨ openPortsScan p.doc.Ports pr = .proceed) ∧
    p1 = ⟨{ p.doc with Ports := p.doc.Ports ++ [pr] }, false⟩ := by
  unfold OpenPorts at h
  split at h
  · simp [Prod.mk.injEq] at h
  · rename_i hv
    split at h
    · simp [Prod.mk.injEq] at h
    · rename_i hb
      simp only [Prod.mk.injEq] at h
      exact ⟨hv, Or.inl (openPortsBuild_noOperations_scan hb), h.2.1.symm⟩
    · rename_i l hb
      split at h
      · rename_i w2 ha
        simp only [Prod.mk.injEq] at h
        exact ⟨hv, Or.inr (openPortsBuild_ops_scan hb), h.2.1.symm⟩
      · simp [Prod.mk.injEq] at h

/-- After a conflict scan that did not fail, scanning the list extended
with the range itself finds a duplicate. -/
lemma openPortsScan_append_self {pr : PortRange} (hv : Validate pr = none) :
    ∀ l, (openPortsScan l pr = .dupFound ∨ openPortsScan l pr = .proceed) →
      openPortsScan (l ++ [pr]) pr = .dupFound := by
  intro l
  induction l with
  | nil =>
    intro _
    simp [openPortsScan, checkConflicts_self hv]
  | cons ex rest ih =>
    intro hscan
    have hcx : CheckConflicts ex pr = none := by
      cases hc : CheckConflicts ex pr with
      | some e =>
        rw [show openPortsScan (ex :: rest) pr = .failed e by simp [openPortsScan, hc]] at hscan
        rcases hscan with h | h <;> simp at h
      | none => rfl
    by_cases hex : ex = pr
    · subst hex
      simp [openPortsScan, hcx]
    · have htail : openPortsScan rest pr = .dupFound ∨ openPortsScan rest pr = .proceed := by
        rw [show openPortsScan (ex :: rest) pr = openPortsScan rest pr by
          simp [openPortsScan, hcx, hex]] at hscan
        exact hscan
      simp [openPortsScan, hcx, hex, ih htail]

/-- After a conflict scan for `R1` that did not fail, scanning the list
extended with `R1` for a range `R2` conflicting with `R1` fails with a
conflict error against `R2`. -/
lemma openPortsScan_append_conflict {R1 R2 : PortRange}
    (hv2 : Validate R2 = none)
    (hc12 : CheckConflicts R1 R2 = some (.portRangesConflict R1 R2))
    (hc21 : CheckConflicts R2 R1 ≠ none) :
    ∀ l, (openPortsScan l R1 = .dupFound ∨ openPortsScan l R1 = .proceed) →
      ∃ q, openPortsScan (l ++ [R1]) R2 = .failed (.portRangesConflict q R2) := by
  intro l
  induction l with
  | nil =>
    intro _
    exact ⟨R1, by simp [openPortsScan, hc12]⟩
  | cons ex rest ih =>
    intro hscan
    have hcx : CheckConflicts ex R1 = none := by
      cases hc : CheckConflicts ex R1 with
      | some e =>
        rw [show openPortsScan (ex :: rest) R1 = .failed e by simp [openPortsScan, hc]] at hscan
        rcases hscan with h | h <;> simp at h
      | none => rfl
    cases hce : CheckConflicts ex R2 with
    | some e =>
      have hvex : Validate ex = none := (checkConflicts_none_validates hcx).1
      have he : e = .portRangesConflict ex R2 := checkConflicts_some_form hvex hv2 hce
      exact ⟨ex, by simp [openPortsScan, hce, he]⟩
    | none =>
      have hne2 : ex ≠ R2 := fun he => hc21 (by rw [← he]; exact hcx)
      have hne1 : ex ≠ R1 := fun he => by rw [he, hc12] at hce; exact Option.noConfusion hce
      have htail : openPortsScan rest R1 = .dupFound ∨ openPortsScan rest R1 = .proceed := by
        rw [show openPortsScan (ex :: rest) R1 = openPortsScan rest R1 by
          simp [openPortsScan, hcx, hne1]] at hscan
        exact hscan
      obtain ⟨q, hq⟩ := ih htail
      exact ⟨q, by simp [openPortsScan, hce, hne2, hq]⟩

/-- The removal loop fails with a conflict error when the list holds a
range of the same unit conflicting with the removed range, the removed
range being absent and every listed range validating. -/
lemma closePortsScan_conflict {pr : PortRange} (hv : Validate pr = none) :
    ∀ l, (∀ x ∈ l, Validate x = none) → pr ∉ l →
      ∀ q ∈ l, q.UnitName = pr.UnitName → CheckConflicts q pr ≠ none →
      ∃ q1, closePortsScan l pr = .failed (.portRangesConflict q1 pr) := by
  intro l
  induction l with
  | nil => intro _ _ q hq; simp at hq
  | cons ex rest ih =>
    intro hval hnotmem q hq hqu hqc
    have hexne : ex ≠ pr := fun he => hnotmem (by rw [← he]; exact List.mem_cons_self ex rest)
    have tailval : ∀ x ∈ rest, Validate x = none :=
      fun x hx => hval x (List.mem_cons_of_mem _ hx)
    have tailnot : pr ∉ rest := fun hm => hnotmem (List.mem_cons_of_mem _ hm)
    cases hce : CheckConflicts ex pr with
    | some e =>
      by_cases hu : ex.UnitName = pr.UnitName
      · have hvex : Validate ex = none := hval ex (List.mem_cons_self ex rest)
        have he : e = .portRangesConflict ex pr := checkConflicts_some_form hvex hv hce
        exact ⟨ex, by simp [closePortsScan, hexne, hce, hu, he]⟩
      · have hqne : q ≠ ex := fun he1 => hu (by rw [← he1]; exact hqu)
        have hqrest : q ∈ rest := by
          rcases List.mem_cons.mp hq with h | h
          · exact absurd h hqne
          · exact h
        obtain ⟨q1, hq1⟩ := ih tailval tailnot q hqrest hqu hqc
        exact ⟨q1, by simp [closePortsScan, hexne, hce, hu, hq1]⟩
    | none =>
      have hqne : q ≠ ex := fun he1 => hqc (by rw [he1]; exact hce)
      have hqrest : q ∈ rest := by
        rcases List.mem_cons.mp hq with h | h
        · exact absurd h hqne
        · exact h
      obtain ⟨q1, hq1⟩ := ih tailval tailnot q hqrest hqu hqc
      exact ⟨q1, by simp [closePortsScan, hexne, hce, hq1]⟩

/-! ### Claim theorems: document mutation -/

/-- C1: after any successful `OpenPorts` call, repeating the call with
the exact same range succeeds, returns the store unchanged (so the
persisted document's range list and revision token are unchanged), and
executes no transaction (the `Bool` in the result is `false`). The
in-memory snapshot gains a duplicate entry, exactly as the source
appends unconditionally after a successful run. -/
theorem open_ports_duplicate_add_is_noop
    (w w1 : World) (p p1 : PortsState) (pr : PortRange) (e1 : Bool)
    (h : OpenPorts w p pr = (w1, p1, .ok e1)) :
    OpenPorts w1 p1 pr =
      (w1, ⟨{ p1.doc with Ports := p1.doc.Ports ++ [pr] }, false⟩, .ok false) := by
  obtain ⟨hv, hscan, hp1⟩ := openPorts_ok_inversion h
  have hports : p1.doc.Ports = p.doc.Ports ++ [pr] := by rw [hp1]
  have hdup : openPortsScan p1.doc.Ports pr = .dupFound := by
    rw [hports]; exact openPortsScan_append_self hv p.doc.Ports hscan
  have hb : openPortsBuild p1 pr = .noOperations := by
    unfold openPortsBuild; rw [hdup]
  simp only [OpenPorts, hv, hb]

/-- Witness for C1: opening `web/0 80-80/tcp` twice from an empty
document; the second call leaves the store alone and runs no
transaction. -/
theorem open_ports_duplicate_add_is_noop_witness :
    OpenPorts sampleWorld1 samplePorts1 prWeb80 =
      (sampleWorld1,
        ⟨{ samplePorts1.doc with Ports := samplePorts1.doc.Ports ++ [prWeb80] }, false⟩,
        .ok false) :=
  open_ports_duplicate_add_is_noop sampleWorld sampleWorld1 samplePorts samplePorts1
    prWeb80 true (by decide)

/-- C3: after a successful `OpenPorts` of `R1`, an `OpenPorts` of a
validated `R2` with the same protocol, overlapping bounds and a
different owner returns a conflict error and both the store and the
in-memory document are returned unmodified. -/
theorem open_ports_conflicting_range_rejected
    (w0 w1 : World) (p0 p1 : PortsState) (R1 R2 : PortRange) (e1 : Bool)
    (h : OpenPorts w0 p0 R1 = (w1, p1, .ok e1))
    (hv2 : Validate R2 = none)
    (hproto : R1.Protocol = R2.Protocol)
    (hov1 : R2.FromPort ≤ R1.ToPort) (hov2 : R1.FromPort ≤ R2.ToPort)
    (howner : R1.UnitName ≠ R2.UnitName) :
    ∃ q, OpenPorts w1 p1 R2 = (w1, p1, .error (.portRangesConflict q R2)) := by
  obtain ⟨hv1, hscan, hp1⟩ := openPorts_ok_inversion h
  have hne : R1 ≠ R2 := fun he => howner (congrArg PortRange.UnitName he)
  have hc12 : CheckConflicts R1 R2 = some (.portRangesConflict R1 R2) :=
    checkConflicts_conflict hv1 hv2 hproto hov1 hov2 hne
  have hc21 : CheckConflicts R2 R1 ≠ none := by
    rw [checkConflicts_conflict hv2 hv1 hproto.symm hov2 hov1 (Ne.symm hne)]
    simp
  obtain ⟨q, hq⟩ := openPortsScan_append_conflict hv2 hc12 hc21 p0.doc.Ports hscan
  have hsc : openPortsScan p1.doc.Ports R2 = .failed (.portRangesConflict q R2) := by
    rw [show p1.doc.Ports = p0.doc.Ports ++ [R1] by rw [hp1]]
    exact hq
  have hb : openPortsBuild p1 R2 = .fail (.portRangesConflict q R2) := by
    unfold openPortsBuild; rw [hsc]
  exact ⟨q, by simp only [OpenPorts, hv2, hb]⟩

/-- Witness for C3: after committing `web/0 80-80/tcp`, opening
`db/0 80-90/tcp` is rejected with a conflict error and nothing
changes. -/
theorem open_ports_conflicting_range_rejected_witness :
    ∃ q, OpenPorts sampleWorld1 samplePorts1 prDb8090 =
      (sampleWorld1, samplePorts1, .error (.portRangesConflict q prDb8090)) :=
  open_ports_conflicting_range_rejected sampleWorld sampleWorld1 samplePorts samplePorts1
    prWeb80 prDb8090 true (by decide) (by decide) (by decide) (by decide) (by decide)
    (by decide)

/-- C4: removing the only range of a document builds exactly the
transactional document-removal operations (not an update to an empty
list), the call succeeds having executed a transaction, and a
subsequent `getPorts` on the document's key returns not-found. -/
theorem close_ports_last_range_removes_document
    (w : World) (p : PortsState) (pr : PortRange) (d : portsDoc)
    (mID sID : String)
    (hv : Validate pr = none) (hone : p.doc.Ports = [pr])
    (hkey : p.doc.DocID = portsGlobalKey mID sID)
    (hfound : findDoc w p.doc.DocID = some d) :
    closePortsBuild p pr = (.ops (removeOps p.doc), []) ∧
    ∃ w1, ClosePorts w p pr = (w1, ⟨{ p.doc with Ports := [] }, p.areNew⟩, .ok true) ∧
      getPorts w1 mID sID = none := by
  have hscan : closePortsScan p.doc.Ports pr = .result [] true := by
    rw [hone]; simp [closePortsScan]
  have hbuild : closePortsBuild p pr = (.ops (removeOps p.doc), []) := by
    unfold closePortsBuild; rw [hscan]; simp
  refine ⟨hbuild, ?_⟩
  have happly : applyOps w (removeOps p.doc) =
      some { w with portsColl := w.portsColl.filter (fun x => !(x.DocID == p.doc.DocID)) } := by
    simp [applyOps, applyOp, removeOps, hfound]
  refine ⟨{ w with portsColl := w.portsColl.filter (fun x => !(x.DocID == p.doc.DocID)) },
    ?_, ?_⟩
  · simp only [ClosePorts, hv, hbuild, happly]
  · simp only [getPorts, findDoc, ← hkey]
    apply List.find?_eq_none.mpr
    intro x hx
    have hm := List.mem_filter.mp hx
    simpa using hm.2

/-- Witness for C4: removing `web/0 80-80/tcp` from the one-range sample
document deletes the document; the follow-up lookup is not-found. -/
theorem close_ports_last_range_removes_document_witness :
    closePortsBuild samplePorts1 prWeb80 = (.ops (removeOps samplePorts1.doc), []) ∧
    ∃ w1, ClosePorts sampleWorld1 samplePorts1 prWeb80 =
        (w1, ⟨{ samplePorts1.doc with Ports := [] }, samplePorts1.areNew⟩, .ok true) ∧
      getPorts w1 "0" "" = none :=
  close_ports_last_range_removes_document sampleWorld1 samplePorts1 prWeb80 sampleDoc1
    "0" "" (by decide) (by decide) (by decide) (by decide)

/-- C7: `ClosePorts` of a validated range absent from a document (all of
whose ranges validate) fails with a conflict error, rather than being a
no-op, whenever the document holds a range of the same unit that
conflicts with it; the store and the object are returned unchanged. -/
theorem close_ports_conflict_same_unit_fails
    (w : World) (p : PortsState) (pr q : PortRange)
    (hv : Validate pr = none)
    (hall : ∀ x ∈ p.doc.Ports, Validate x = none)
    (hnot : pr ∉ p.doc.Ports)
    (hq : q ∈ p.doc.Ports) (hqu : q.UnitName = pr.UnitName)
    (hproto : q.Protocol = pr.Protocol)
    (hov1 : pr.FromPort ≤ q.ToPort) (hov2 : q.FromPort ≤ pr.ToPort) :
    ∃ q1, ClosePorts w p pr = (w, p, .error (.portRangesConflict q1 pr)) := by
  have hqne : q ≠ pr := fun he => hnot (he ▸ hq)
  have hqc : CheckConflicts q pr ≠ none := by
    rw [checkConflicts_conflict (hall q hq) hv hproto hov1 hov2 hqne]
    simp
  obtain ⟨q1, hsc⟩ := closePortsScan_conflict hv p.doc.Ports hall hnot q hq hqu hqc
  have hbuild : closePortsBuild p pr = (.fail (.portRangesConflict q1 pr), []) := by
    unfold closePortsBuild; rw [hsc]
  exact ⟨q1, by simp only [ClosePorts, hv, hbuild]⟩

/-- Witness for C7: closing the never-opened `web/0 80-90/tcp` while
`web/0 80-80/tcp` is open fails with a conflict error. -/
theorem close_ports_conflict_same_unit_fails_witness :
    ∃ q1, ClosePorts sampleWorld1 samplePorts1 prWeb8090 =
      (sampleWorld1, samplePorts1, .error (.portRangesConflict q1 prWeb8090)) :=
  close_ports_conflict_same_unit_fails sampleWorld1 samplePorts1 prWeb8090 prWeb80
    (by decide) (by decide) (by decide) (by decide) (by decide) (by decide) (by decide)
    (by decide)

/-! ### Helper lemmas about the ports key builder and parser -/

/-- `breakAtHash` splits its input into its two components. -/
lemma breakAtHash_eq (cs : List Char) : cs = (breakAtHash cs).1 ++ (breakAtHash cs).2 := by
  induction cs with
  | nil => rfl
  | cons c rest ih =>
    by_cases h : c = '#'
    · simp [breakAtHash, h]
    · simp only [breakAtHash, if_neg h]
      exact congrArg (c :: ·) ih

/-- `breakAtHash` of a hash-free front followed by a hash. -/
lemma breakAtHash_append {l r : List Char} (h : '#' ∉ l) :
    breakAtHash (l ++ '#' :: r) = (l, '#' :: r) := by
  induction l with
  | nil => simp [breakAtHash]
  | cons c rest ih =>
    have hc : c ≠ '#' := fun he => h (he ▸ List.mem_cons_self c rest)
    have hrest : '#' ∉ rest := fun hm => h (List.mem_cons_of_mem _ hm)
    show breakAtHash (c :: (rest ++ '#' :: r)) = _
    simp only [breakAtHash, if_neg hc]
    rw [ih hrest]

/-- `splitOnChar` never returns the empty list of parts. -/
lemma splitOnChar_ne_nil (sep : Char) (cs : List Char) : splitOnChar sep cs ≠ [] := by
  induction cs with
  | nil => simp [splitOnChar]
  | cons c rest ih =>
    by_cases h : c = sep
    · simp [splitOnChar, h]
    · simp only [splitOnChar, if_neg h]
      cases hs : splitOnChar sep rest with
      | nil => simp
      | cons w ws => simp

/-- Every character of a split list is the separator or lies in one of
the parts. -/
lemma mem_splitOnChar (sep : Char) {c : Char} {cs : List Char} (hm : c ∈ cs) :
    c = sep ∨ ∃ part ∈ splitOnChar sep cs, c ∈ part := by
  induction cs with
  | nil => simp at hm
  | cons a rest ih =>
    by_cases h : a = sep
    · rcases List.mem_cons.mp hm with rfl | hm2
      · exact Or.inl h
      · rcases ih hm2 with h1 | ⟨part, hp, hcp⟩
        · exact Or.inl h1
        · refine Or.inr ⟨part, ?_, hcp⟩
          simp only [splitOnChar, if_pos h]
          exact List.mem_cons_of_mem _ hp
    · cases hs : splitOnChar sep rest with
      | nil => exact absurd hs (splitOnChar_ne_nil sep rest)
      | cons w ws =>
        rcases List.mem_cons.mp hm with rfl | hm2
        · refine Or.inr ⟨c :: w, ?_, List.mem_cons_self c w⟩
          simp [splitOnChar, if_neg h, hs]
        · rcases ih hm2 with h1 | ⟨part, hp, hcp⟩
          · exact Or.inl h1
          · rcases List.mem_cons.mp (hs ▸ hp) with rfl | hpw
            · refine Or.inr ⟨a :: part, ?_, List.mem_cons_of_mem _ hcp⟩
              simp [splitOnChar, if_neg h, hs]
            · refine Or.inr ⟨part, ?_, hcp⟩
              simp only [splitOnChar, if_neg h, hs]
              exact List.mem_cons_of_mem _ hpw

/-- A number never contains a hash. -/
lemma validNumberChars_no_hash {n : List Char} (h : validNumberChars n = true) : '#' ∉ n := by
  intro hm
  cases n with
  | nil => simp at hm
  | cons a t =>
    cases t with
    | nil =>
      rcases List.mem_singleton.mp hm with rfl
      exact absurd h (by decide)
    | cons b t2 =>
      simp only [validNumberChars, Bool.and_eq_true] at h
      rcases List.mem_cons.mp hm with rfl | hm2
      · rcases h.1 with ⟨h1, -⟩
        exact absurd h1 (by decide)
      · have := List.all_eq_true.mp h.2 '#' hm2
        exact absurd this (by decide)

/-- A container type never contains a hash. -/
lemma validContainerTypeChars_no_hash {n : List Char}
    (h : validContainerTypeChars n = true) : '#' ∉ n := by
  intro hm
  simp only [validContainerTypeChars, Bool.and_eq_true] at h
  have := List.all_eq_true.mp h.2 '#' hm
  exact absurd this (by decide)

/-- No part of a machine-id tail contains a hash. -/
lemma validMachineTailChars_no_hash :
    ∀ ps, validMachineTailChars ps = true → ∀ p ∈ ps, '#' ∉ p
  | [], _, p, hp => by simp at hp
  | [x], h, p, hp => by simp [validMachineTailChars] at h
  | c :: n :: rest, h, p, hp => by
    simp only [validMachineTailChars, Bool.and_eq_true] at h
    rcases List.mem_cons.mp hp with rfl | hp2
    · exact validContainerTypeChars_no_hash h.1.1
    · rcases List.mem_cons.mp hp2 with rfl | hp3
      · exact validNumberChars_no_hash h.1.2
      · exact validMachineTailChars_no_hash rest h.2 p hp3

/-- A machine id never contains a hash. -/
lemma isValidMachineChars_no_hash {mm : List Char}
    (h : isValidMachineChars mm = true) : '#' ∉ mm := by
  intro hm
  unfold isValidMachineChars at h
  cases hs : splitOnChar '/' mm with
  | nil => rw [hs] at h; simp at h
  | cons n rest =>
    rw [hs] at h
    simp only [Bool.and_eq_true] at h
    rcases mem_splitOnChar '/' hm with h1 | ⟨part, hp, hcp⟩
    · exact absurd h1 (by decide)
    · rcases List.mem_cons.mp (hs ▸ hp) with rfl | hpr
      · exact validNumberChars_no_hash h.1 hcp
      · exact validMachineTailChars_no_hash rest h.2 part hpr hcp

/-- Evaluation of the regular-expression matcher on text of the matched
shape. -/
lemma matchPortsKeyAt_some_of {mm ss : List Char}
    (hv : isValidMachineChars mm = true) (hs : ss.all (· ≠ '\n') = true) :
    matchPortsKeyAt ('m' :: '#' :: (mm ++ '#' :: ss)) =
      some ('m' :: '#' :: (mm ++ '#' :: ss), mm, ss) := by
  have hb : breakAtHash (mm ++ '#' :: ss) = (mm, '#' :: ss) :=
    breakAtHash_append (isValidMachineChars_no_hash hv)
  simp only [matchPortsKeyAt, hb]
  rw [if_pos (show (isValidMachineChars mm && ss.all (· ≠ '\n')) = true by rw [hv, hs]; rfl)]

/-- Inversion of a successful regular-expression match at a fixed
position: the text decomposes into the matched shape and the result
carries its groups. -/
lemma matchPortsKeyAt_inv {cs : List Char} {r : List Char × List Char × List Char}
    (h : matchPortsKeyAt cs = some r) :
    ∃ mm ss, cs = 'm' :: '#' :: (mm ++ '#' :: ss) ∧
      isValidMachineChars mm = true ∧ ss.all (· ≠ '\n') = true ∧
      r = ('m' :: '#' :: (mm ++ '#' :: ss), mm, ss) := by
  unfold matchPortsKeyAt at h
  split at h
  · rename_i rest
    split at h
    · rename_i mpart spart hb
      split at h
      · rename_i hcond
        simp only [Bool.and_eq_true] at hcond
        have hrest : rest = mpart ++ '#' :: spart := by
          have he := breakAtHash_eq rest
          rw [hb] at he
          exact he
        refine ⟨mpart, spart, by rw [hrest], hcond.1, hcond.2, ?_⟩
        rw [← Option.some_inj.mp h, hrest]
      · exact absurd h (by simp)
    · exact absurd h (by simp)
  · exact absurd h (by simp)

/-- A match anywhere in the text makes the unanchored search succeed. -/
lemma findPortsMatch_of_matchAt :
    ∀ (pre tail : List Char) (r : List Char × List Char × List Char),
      matchPortsKeyAt tail = some r → findPortsMatch (pre ++ tail) ≠ none := by
  intro pre
  induction pre with
  | nil =>
    intro tail r hm
    cases tail with
    | nil => simp [matchPortsKeyAt] at hm
    | cons c cs => simp [findPortsMatch, hm]
  | cons a pre2 ih =>
    intro tail r hm
    show findPortsMatch (a :: (pre2 ++ tail)) ≠ none
    unfold findPortsMatch
    cases hma : matchPortsKeyAt (a :: (pre2 ++ tail)) with
    | some r2 => simp
    | none => simpa using ih tail r hm

/-- Inversion of a successful unanchored search: the text contains the
matched shape extending to its end. -/
lemma findPortsMatch_some_inv :
    ∀ (cs : List Char) (r : List Char × List Char × List Char),
      findPortsMatch cs = some r →
      ∃ pre mm ss, cs = pre ++ 'm' :: '#' :: (mm ++ '#' :: ss) ∧
        isValidMachineChars mm = true ∧ ss.all (· ≠ '\n') = true := by
  intro cs
  induction cs with
  | nil => intro r h; simp [findPortsMatch] at h
  | cons c cs2 ih =>
    intro r h
    unfold findPortsMatch at h
    split at h
    · rename_i r0 hma
      obtain ⟨mm, ss, hceq, hv, hnl, -⟩ := matchPortsKeyAt_inv hma
      exact ⟨[], mm, ss, by simpa using hceq, hv, hnl⟩
    · obtain ⟨pre, mm, ss, hceq, hv, hnl⟩ := ih r h
      exact ⟨c :: pre, mm, ss, by rw [List.cons_append, ← hceq], hv, hnl⟩

/-- The unanchored search succeeds exactly on texts containing the
matched shape extending to their end. -/
lemma findPortsMatch_ne_none_iff (cs : List Char) :
    findPortsMatch cs ≠ none ↔
      ∃ pre mm ss, cs = pre ++ 'm' :: '#' :: (mm ++ '#' :: ss) ∧
        isValidMachineChars mm = true ∧ ss.all (· ≠ '\n') = true := by
  constructor
  · intro h
    cases hf : findPortsMatch cs with
    | none => exact absurd hf h
    | some r => exact findPortsMatch_some_inv cs r hf
  · rintro ⟨pre, mm, ss, rfl, hv, hnl⟩
    exact findPortsMatch_of_matchAt pre _ _ (matchPortsKeyAt_some_of hv hnl)

/-! ### Claim theorems: the ports key builder and parser -/

/-- Counterexample for C5: every key of the three-part shape
`m#<machine>#<subnet>` begins with the two characters `m`, `#`; the key
`xm#0#` does not, yet `extractPortsIDParts` accepts it, because the
source regular expression is not anchored at the start of the key. This
refutes the claim that any key not matching the three-part shape is
rejected as not valid. -/
theorem ports_key_parser_accepts_prefixed_key :
    extractPortsIDParts "xm#0#" = some ["m#0#", "0", ""] ∧
    "xm#0#".data.take 2 ≠ ['m', '#'] := by decide

/-- C5 (amended): the key builder produces exactly the three-part key
`m#<machine>#<subnet>`; the parser accepts every built key whose machine
id matches the machine-id pattern and whose subnet id has no newline,
returning the full key with the machine and subnet parts; and in
general the parser accepts precisely those keys containing a match of
`m#<machine-id-pattern>#<newline-free-subnet>` that extends to the end
of the key — the match need not start at the beginning of the key, so
keys with extra leading characters are also accepted. -/
theorem ports_key_builder_parser_characterisation :
    (∀ machineID subnetID : String,
      portsGlobalKey machineID subnetID = "m#" ++ machineID ++ "#" ++ subnetID) ∧
    (∀ machineID subnetID : String,
      isValidMachineChars machineID.data = true →
      subnetID.data.all (· ≠ '\n') = true →
      extractPortsIDParts (portsGlobalKey machineID subnetID) =
        some [portsGlobalKey machineID subnetID, machineID, subnetID]) ∧
    (∀ key : String,
      extractPortsIDParts key ≠ none ↔
        ∃ pre mm ss, key.data = pre ++ 'm' :: '#' :: (mm ++ '#' :: ss) ∧
          isValidMachineChars mm = true ∧ ss.all (· ≠ '\n') = true) := by
  refine ⟨fun _ _ => rfl, ?_, ?_⟩
  · intro m s hv hnl
    obtain ⟨mc⟩ := m
    obtain ⟨sc⟩ := s
    have hdata : (portsGlobalKey ⟨mc⟩ ⟨sc⟩).data = 'm' :: '#' :: (mc ++ '#' :: sc) := by
      simp [portsGlobalKey, String.data_append]
    have hfind : findPortsMatch ('m' :: '#' :: (mc ++ '#' :: sc)) =
        some ('m' :: '#' :: (mc ++ '#' :: sc), mc, sc) := by
      rw [show findPortsMatch ('m' :: '#' :: (mc ++ '#' :: sc)) =
          match matchPortsKeyAt ('m' :: '#' :: (mc ++ '#' :: sc)) with
          | some r => some r
          | none => findPortsMatch ('#' :: (mc ++ '#' :: sc)) from rfl]
      rw [matchPortsKeyAt_some_of hv hnl]
    have hstr : String.mk ('m' :: '#' :: (mc ++ '#' :: sc)) = portsGlobalKey ⟨mc⟩ ⟨sc⟩ :=
      String.ext hdata.symm
    unfold extractPortsIDParts
    rw [hdata, hfind]
    show some [String.mk ('m' :: '#' :: (mc ++ '#' :: sc)), String.mk mc, String.mk sc] =
      some [portsGlobalKey ⟨mc⟩ ⟨sc⟩, ⟨mc⟩, ⟨sc⟩]
    rw [hstr]
  · intro key
    unfold extractPortsIDParts
    cases hf : findPortsMatch key.data with
    | none =>
      refine iff_of_false (by simp) (fun hr => ?_)
      have := (findPortsMatch_ne_none_iff key.data).mpr hr
      exact this hf
    | some r =>
      obtain ⟨full, machine, subnet⟩ := r
      refine iff_of_true (by simp) ?_
      exact findPortsMatch_some_inv key.data (full, machine, subnet) hf

/-- Witness for C5 (amended): the key built for machine `0` and subnet
`subnet-a` parses back to its parts. -/
theorem ports_key_builder_parser_characterisation_witness :
    extractPortsIDParts (portsGlobalKey "0" "subnet-a") =
      some [portsGlobalKey "0" "subnet-a", "0", "subnet-a"] :=
  ports_key_builder_parser_characterisation.2.1 "0" "subnet-a" (by decide) (by decide)

end Juju
